import Mathlib

/-!
Verification of the version-resolution and fleet-synchronization engine of
ts_manage_observing_environment.

The Rust sources are embedded shallowly:

* string-level code (`VALID_VERSION`, `REPO_VERSION_REGEXP`,
  `expand_version_to_tag`, `get_base_env_versions`) is translated to pure
  functions on `List Char` / `String`;
* the git2-backed checkout procedures (`checkout_tag`, `checkout_branch`,
  `checkout_tag_or_branch`, `reset_index_to_version`) are translated to
  functions over an oracle record `GitRepo` giving the outcome of every
  backend call, together with an explicit trace of the mutating effects the
  code issues;
* the fleet-level `reset_base_environment` and the sidecar receive loop are
  translated to functions over outcome oracles in the same style.
-/

/-! ## Characters and small string utilities -/

/-- Character set of the `name` capture group of `REPO_VERSION_REGEXP`
(`[a-zA-Z0-9_]`, from src/observing_environment.rs line 14). -/
def isNameChar (c : Char) : Bool :=
  c.isAlphanum || c = '_'

/-- Character set of the `version` capture group of `REPO_VERSION_REGEXP`
(`[a-zA-Z0-9._]`, from src/observing_environment.rs line 14). -/
def isVersionChar (c : Char) : Bool :=
  c.isAlphanum || c = '.' || c = '_'

/-- All characters of the list are ASCII decimal digits (`[0-9]`). -/
def allDigits (l : List Char) : Bool :=
  l.all Char.isDigit

/-! ## The VALID_VERSION matcher

`VALID_VERSION = r"^(?P<major>[0-9]*)\.(?P<minor>[0-9]*)\.(?P<patch>[0-9]*)"`
(src/observing_environment.rs line 15).  `Regex::is_match` with this anchored
pattern succeeds exactly when the string starts with
`digits* '.' digits* '.'` (the trailing `[0-9]*` can always match the empty
string).  `validVersionIsMatchL` decides exactly that condition. -/

/-- Embedding of `Regex::new(VALID_VERSION).is_match` on a character list. -/
def validVersionIsMatchL (s : List Char) : Bool :=
  match s.dropWhile Char.isDigit with
  | '.' :: r2 =>
    match r2.dropWhile Char.isDigit with
    | '.' :: _ => true
    | _ => false
  | _ => false

/-- Embedding of `Regex::new(VALID_VERSION).is_match` on a string. -/
def valid_version_is_match (s : String) : Bool :=
  validVersionIsMatchL s.data

/-- The string starts with a decimal digit. -/
def startsWithDigit (s : String) : Bool :=
  match s.data with
  | [] => false
  | c :: _ => c.isDigit

/-- The string starts with a decimal digit or with a period. -/
def startsWithDigitOrDot (s : String) : Bool :=
  match s.data with
  | [] => false
  | c :: _ => c.isDigit || c = '.'

/-! ## String replacement

`str::replace(from, to)` replaces every leftmost non-overlapping occurrence
of `from`.  `expand_version_to_tag` uses it with the one-character patterns
`'a'`, `'b'` and the two-character pattern `"rc"`; the two embeddings below
implement exactly those two cases. -/

/-- Embedding of `str::replace` for a one-character pattern. -/
def replChar (c : Char) (rep : List Char) : List Char → List Char
  | [] => []
  | x :: xs => if x = c then rep ++ replChar c rep xs else x :: replChar c rep xs

/-- Embedding of `str::replace` for the two-character pattern `"rc"`:
leftmost, non-overlapping occurrences of `'r'` followed by `'c'`. -/
def replRC (rep : List Char) : List Char → List Char
  | [] => []
  | [x] => [x]
  | x :: y :: xs =>
    if x = 'r' then
      if y = 'c' then rep ++ replRC rep xs
      else x :: replRC rep (y :: xs)
    else x :: replRC rep (y :: xs)

/-- Replacement text for `'a'` (`".alpha."`). -/
def alphaWord : List Char := ['.', 'a', 'l', 'p', 'h', 'a', '.']

/-- Replacement text for `'b'` (`".beta."`). -/
def betaWord : List Char := ['.', 'b', 'e', 't', 'a', '.']

/-- Replacement text for `"rc"` (`".rc."`). -/
def rcWord : List Char := ['.', 'r', 'c', '.']

/-! ## The tag codec -/

/-- Embedding of `ObservingEnvironment::expand_version_to_tag`
(src/observing_environment.rs lines 476-487) on a character list:
if `VALID_VERSION` matches, prepend `'v'` and apply the three replacements
`'a' -> ".alpha."`, `'b' -> ".beta."`, `"rc" -> ".rc."` in that order;
otherwise return the input unchanged. -/
def expand_version_to_tagL (version : List Char) : List Char :=
  if validVersionIsMatchL version then
    replRC rcWord (replChar 'b' betaWord (replChar 'a' alphaWord ('v' :: version)))
  else version

/-- Embedding of `ObservingEnvironment::expand_version_to_tag` on a string. -/
def expand_version_to_tag (version : String) : String :=
  ⟨expand_version_to_tagL version.data⟩

/-! ## The semantic-version grammar

Modelled from the spec: the grammar `MAJOR.MINOR.PATCH[{a|b|rc}[N]]`
(spec sections 3 VersionSpec and 4.1 parseSemVer, and the doc comment of
`reset_index_to_version`, src/observing_environment.rs lines 433-454).
The three numeric fields are non-empty digit strings; the optional
prerelease part is one of `a`, `b`, `rc` followed by an optional digit
string.  This definition exists to compare the code's behaviour with the
spec's grammar; it is not itself part of the Rust source. -/

inductive PreKind
  | alpha
  | beta
  | rc
deriving DecidableEq, Repr

structure VersionSpec where
  major : List Char
  minor : List Char
  patch : List Char
  pre : Option (PreKind × List Char)
deriving DecidableEq, Repr

/-- Prerelease marker as it is spelled in a version string. -/
def preLetter : PreKind → List Char
  | PreKind.alpha => ['a']
  | PreKind.beta => ['b']
  | PreKind.rc => ['r', 'c']

/-- Prerelease marker as it is spelled in a tag name. -/
def preWord : PreKind → List Char
  | PreKind.alpha => alphaWord
  | PreKind.beta => betaWord
  | PreKind.rc => rcWord

/-- Suffix contributed by the prerelease part of a version string. -/
def preSuffix (pre : Option (PreKind × List Char)) : List Char :=
  match pre with
  | none => []
  | some (k, n) => preLetter k ++ n

/-- Suffix contributed by the prerelease part of a tag name. -/
def preTagSuffix (pre : Option (PreKind × List Char)) : List Char :=
  match pre with
  | none => []
  | some (k, n) => preWord k ++ n

/-- The version string denoted by a `VersionSpec`. -/
def renderVersion (v : VersionSpec) : List Char :=
  v.major ++ ('.' :: (v.minor ++ ('.' :: (v.patch ++ preSuffix v.pre))))

/-- The tag name (`TagName`, spec section 3) denoted by a `VersionSpec`. -/
def renderTag (v : VersionSpec) : List Char :=
  'v' :: (v.major ++ ('.' :: (v.minor ++ ('.' :: (v.patch ++ preTagSuffix v.pre)))))

/-- Modelled from the spec: `parseSemVer`, the full-string match of the
grammar `MAJOR.MINOR.PATCH[{a|b|rc}[N]]`.  Returns `none` for every string
outside the grammar (such strings are opaque revision names). -/
def parseSemVerL (s : List Char) : Option VersionSpec :=
  match s.dropWhile Char.isDigit with
  | '.' :: r2 =>
    match r2.dropWhile Char.isDigit with
    | '.' :: r4 =>
      if (s.takeWhile Char.isDigit).isEmpty
          || (r2.takeWhile Char.isDigit).isEmpty
          || (r4.takeWhile Char.isDigit).isEmpty then none
      else
        match r4.dropWhile Char.isDigit with
        | [] => some ⟨s.takeWhile Char.isDigit, r2.takeWhile Char.isDigit,
                      r4.takeWhile Char.isDigit, none⟩
        | 'a' :: n =>
          if allDigits n then
            some ⟨s.takeWhile Char.isDigit, r2.takeWhile Char.isDigit,
                  r4.takeWhile Char.isDigit, some (PreKind.alpha, n)⟩
          else none
        | 'b' :: n =>
          if allDigits n then
            some ⟨s.takeWhile Char.isDigit, r2.takeWhile Char.isDigit,
                  r4.takeWhile Char.isDigit, some (PreKind.beta, n)⟩
          else none
        | 'r' :: 'c' :: n =>
          if allDigits n then
            some ⟨s.takeWhile Char.isDigit, r2.takeWhile Char.isDigit,
                  r4.takeWhile Char.isDigit, some (PreKind.rc, n)⟩
          else none
        | _ => none
    | _ => none
  | _ => none

/-- Modelled from the spec: `parseSemVer` on a string. -/
def parseSemVer (s : String) : Option VersionSpec :=
  parseSemVerL s.data

/-- Well-formedness invariants of a parsed `VersionSpec`: the three numeric
fields are non-empty digit strings and the prerelease number is a digit
string. -/
def specWF (v : VersionSpec) : Prop :=
  v.major ≠ [] ∧ allDigits v.major = true ∧
  v.minor ≠ [] ∧ allDigits v.minor = true ∧
  v.patch ≠ [] ∧ allDigits v.patch = true ∧
  (∀ k n, v.pre = some (k, n) → allDigits n = true)

/-- The list is empty or starts with a non-digit character. -/
def headNotDigit (l : List Char) : Prop :=
  match l with
  | [] => True
  | c :: _ => c.isDigit = false

/-! ## The baseline map (`get_base_env_versions`)

`get_base_env_versions` (src/observing_environment.rs lines 319-359), after
`update_base_env_source` and `load_base_env_def_file` succeed, computes for
every managed repository name the first definitions-file line satisfying
`line.starts_with(repo_name)`, keeps the `Some` results, applies
`Regex::captures` with `REPO_VERSION_REGEXP` to each kept line, keeps the
`Some` captures and collects the `(name, version)` capture pairs. -/

/-- Embedding of `Regex::captures` for the pattern
`(?P<name>[a-zA-Z0-9_]*)=(?P<version>[a-zA-Z0-9._]*)` (unanchored,
leftmost-first).  Both groups are greedy runs of character classes that
exclude `'='`, so a match at position `p` succeeds exactly when the maximal
name-class run starting at `p` is immediately followed by `'='`; the
leftmost such `p` is the start of the maximal name-class run ending just
before the first `'='` of the line.  Hence: no `'='` in the line means no
match; otherwise `name` is the maximal name-class run ending at the first
`'='` (possibly empty) and `version` is the maximal version-class run
following it (possibly empty). -/
def repoVersionCaptures (line : List Char) : Option (List Char × List Char) :=
  match line.dropWhile (fun c => c ≠ '=') with
  | [] => none
  | _ :: after =>
    some (((line.takeWhile (fun c => c ≠ '=')).reverse.takeWhile isNameChar).reverse,
          after.takeWhile isVersionChar)

/-- Embedding of the pure core of `get_base_env_versions`: the ordered
`(name, version)` pairs collected into the returned `BTreeMap`, given the
managed repository names (in `BTreeMap` key order) and the lines of the
baseline definitions file. -/
def get_base_env_versions_entries (repositories : List (List Char))
    (base_env_def : List (List Char)) : List (List Char × List Char) :=
  (((repositories.map
      (fun repo_name => base_env_def.find? (fun line => repo_name.isPrefixOf line)))
    |>.filterMap id)
    |>.filterMap repoVersionCaptures)

/-! ## The git backend oracle and effect trace

The git2 calls issued by the checkout procedures are modelled by an oracle
record: each field gives the outcome the backend would return for one call.
The mutating calls (`fetch`, `branch`, `set_head`, `reset`) are additionally
recorded in an effect trace in the order the code issues them. -/

/-- Outcome payload of a failed git2 call (`git2::Error::message`). -/
structure GitError where
  message : String
deriving DecidableEq, Repr

/-- A failure escaping one of the checkout procedures: either a propagated
`git2::Error` (Rust `?` / explicit `Err`) or a Rust panic (`unwrap` on an
`Err`), which unwinds instead of returning a value. -/
inductive GitFailure
  | err (e : GitError)
  | unwrapPanic (msg : String)
deriving DecidableEq, Repr

/-- Reference identifier handed out by the modelled backend. -/
abbrev GitRef := Nat

/-- Mutating backend calls, in the order the code issues them. -/
inductive GitEffect
  | fetch (refspecs : List String) (downloadTagsAll : Bool)
  | branchCreate (name : String) (commit : Nat) (force : Bool)
  | setHead (refname : String)
  | resetHard (obj : Nat)
deriving DecidableEq, Repr

/-- Oracle for the git2 backend of one repository: the outcome of every
call the checkout procedures can make.  Commits and objects are `Nat`
identifiers. -/
structure GitRepo where
  findRemote : String → Except GitError Unit
  fetchRes : List String → Except GitError Unit
  revparseSingle : String → Except GitError Nat
  findBranch : String → Except GitError GitRef
  refPeelToCommit : GitRef → Except GitError Nat
  peelObjToCommit : Nat → Except GitError Nat
  branchCreate : String → Nat → Except GitError GitRef
  refName : GitRef → Option String
  setHeadRes : String → Except GitError Unit
  resetRes : Nat → Except GitError Unit

/-- Embedding of the free function `checkout_tag`
(src/observing_environment.rs lines 516-527).  The failure of
`object.peel_to_commit().unwrap()` is a panic, not an `Err`; every other
failing call propagates as `Err` via `?`. -/
def checkout_tag (r : GitRepo) (version : String) (object : Nat) (spec : String)
    (tr : List GitEffect) : Except GitFailure Unit × List GitEffect :=
  match r.peelObjToCommit object with
  | .error e => (.error (.unwrapPanic e.message), tr)
  | .ok commit =>
    match r.branchCreate version commit with
    | .error e => (.error (.err e), tr ++ [GitEffect.branchCreate version commit true])
    | .ok _ =>
      match r.setHeadRes spec with
      | .error e =>
        (.error (.err e),
         tr ++ [GitEffect.branchCreate version commit true, GitEffect.setHead spec])
      | .ok _ =>
        match r.resetRes object with
        | .error e =>
          (.error (.err e),
           tr ++ [GitEffect.branchCreate version commit true, GitEffect.setHead spec,
                  GitEffect.resetHard object])
        | .ok _ =>
          (.ok (),
           tr ++ [GitEffect.branchCreate version commit true, GitEffect.setHead spec,
                  GitEffect.resetHard object])

/-- Embedding of the free function `checkout_branch`
(src/observing_environment.rs lines 529-586): fetch the named branch from
`origin`, resolve the remote-tracking branch `origin/<name>`, peel it to a
commit, force-create the local branch `"temp"` there and point HEAD at it,
force-create the local branch `<name>` there, hard-reset the working tree to
the upstream object, and finally point HEAD at the local branch.  A `None`
refname produces the typed `git2::Error` with message `"Error"`. -/
def checkout_branch (r : GitRepo) (branch_name : String) (tr : List GitEffect) :
    Except GitFailure Unit × List GitEffect :=
  match r.findRemote "origin" with
  | .error e => (.error (.err e), tr)
  | .ok _ =>
    match r.fetchRes [branch_name] with
    | .error e => (.error (.err e), tr ++ [GitEffect.fetch [branch_name] false])
    | .ok _ =>
      match r.findBranch ("origin/" ++ branch_name) with
      | .error e => (.error (.err e), tr ++ [GitEffect.fetch [branch_name] false])
      | .ok branch_reference =>
        match r.refPeelToCommit branch_reference with
        | .error e => (.error (.err e), tr ++ [GitEffect.fetch [branch_name] false])
        | .ok commit =>
          match r.branchCreate "temp" commit with
          | .error e =>
            (.error (.err e),
             tr ++ [GitEffect.fetch [branch_name] false,
                    GitEffect.branchCreate "temp" commit true])
          | .ok temp_branch =>
            match r.refName temp_branch with
            | none =>
              (.error (.err ⟨"Error"⟩),
               tr ++ [GitEffect.fetch [branch_name] false,
                      GitEffect.branchCreate "temp" commit true])
            | some temp_refname =>
              match r.setHeadRes temp_refname with
              | .error e =>
                (.error (.err e),
                 tr ++ [GitEffect.fetch [branch_name] false,
                        GitEffect.branchCreate "temp" commit true,
                        GitEffect.setHead temp_refname])
              | .ok _ =>
                match r.branchCreate branch_name commit with
                | .error e =>
                  (.error (.err e),
                   tr ++ [GitEffect.fetch [branch_name] false,
                          GitEffect.branchCreate "temp" commit true,
                          GitEffect.setHead temp_refname,
                          GitEffect.branchCreate branch_name commit true])
                | .ok local_branch =>
                  match r.refName branch_reference with
                  | none =>
                    (.error (.err ⟨"Error"⟩),
                     tr ++ [GitEffect.fetch [branch_name] false,
                            GitEffect.branchCreate "temp" commit true,
                            GitEffect.setHead temp_refname,
                            GitEffect.branchCreate branch_name commit true])
                  | some upstream_name =>
                    match r.revparseSingle upstream_name with
                    | .error e =>
                      (.error (.err e),
                       tr ++ [GitEffect.fetch [branch_name] false,
                              GitEffect.branchCreate "temp" commit true,
                              GitEffect.setHead temp_refname,
                              GitEffect.branchCreate branch_name commit true])
                    | .ok object =>
                      match r.resetRes object with
                      | .error e =>
                        (.error (.err e),
                         tr ++ [GitEffect.fetch [branch_name] false,
                                GitEffect.branchCreate "temp" commit true,
                                GitEffect.setHead temp_refname,
                                GitEffect.branchCreate branch_name commit true,
                                GitEffect.resetHard object])
                      | .ok _ =>
                        match r.refName local_branch with
                        | none =>
                          (.error (.err ⟨"Error"⟩),
                           tr ++ [GitEffect.fetch [branch_name] false,
                                  GitEffect.branchCreate "temp" commit true,
                                  GitEffect.setHead temp_refname,
                                  GitEffect.branchCreate branch_name commit true,
                                  GitEffect.resetHard object])
                        | some refname =>
                          match r.setHeadRes refname with
                          | .error e =>
                            (.error (.err e),
                             tr ++ [GitEffect.fetch [branch_name] false,
                                    GitEffect.branchCreate "temp" commit true,
                                    GitEffect.setHead temp_refname,
                                    GitEffect.branchCreate branch_name commit true,
                                    GitEffect.resetHard object,
                                    GitEffect.setHead refname])
                          | .ok _ =>
                            (.ok (),
                             tr ++ [GitEffect.fetch [branch_name] false,
                                    GitEffect.branchCreate "temp" commit true,
                                    GitEffect.setHead temp_refname,
                                    GitEffect.branchCreate branch_name commit true,
                                    GitEffect.resetHard object,
                                    GitEffect.setHead refname])

/-- Embedding of `ObservingEnvironment::checkout_tag_or_branch`
(src/observing_environment.rs lines 489-513): fetch everything (with all
tags) from `origin`, then resolve `refs/tags/<tag>`; on success run the tag
path, on failure fall back to the branch path with the original `version`
string. -/
def checkout_tag_or_branch (r : GitRepo) (tag version : String)
    (tr : List GitEffect) : Except GitFailure Unit × List GitEffect :=
  match r.findRemote "origin" with
  | .error e => (.error (.err e), tr)
  | .ok _ =>
    match r.fetchRes [""] with
    | .error e => (.error (.err e), tr ++ [GitEffect.fetch [""] true])
    | .ok _ =>
      match r.revparseSingle ("refs/tags/" ++ tag) with
      | .ok object =>
        checkout_tag r version object ("refs/tags/" ++ tag)
          (tr ++ [GitEffect.fetch [""] true])
      | .error _ => checkout_branch r version (tr ++ [GitEffect.fetch [""] true])

/-- Embedding of the error type `ObsEnvError` (src/error.rs). -/
inductive ObsEnvError
  | ERROR (msg : String)
  | GIT (msg : String)
deriving DecidableEq, Repr

/-- Outcome of `reset_index_to_version` as observed by its caller: success,
a typed `ObsEnvError`, or a panic unwinding through it. -/
inductive RunOutcome
  | ok
  | obsErr (e : ObsEnvError)
  | panicStop (msg : String)
deriving DecidableEq, Repr

/-- Embedding of `ObservingEnvironment::reset_index_to_version`
(src/observing_environment.rs lines 455-472).  `openRepo` is the outcome of
`Repository::open`; a checkout error is wrapped in `ObsEnvError::GIT` with
the repository name, the attempted tag spec, the version and the underlying
message; an open failure is wrapped with the repository name alone. -/
def reset_index_to_version (openRepo : Except GitError GitRepo)
    (repo version : String) : RunOutcome × List GitEffect :=
  match openRepo with
  | .ok r =>
    match checkout_tag_or_branch r (expand_version_to_tag version) version [] with
    | (.ok _, tr) => (.ok, tr)
    | (.error (.err e), tr) =>
      (.obsErr (ObsEnvError.GIT
        ("Could not checkout tag or branch for " ++ repo ++ "@"
          ++ expand_version_to_tag version ++ "[" ++ version ++ "]: " ++ e.message)), tr)
    | (.error (.unwrapPanic m), tr) => (.panicStop m, tr)
  | .error _ =>
    (.obsErr (ObsEnvError.GIT ("Failed to open repository: " ++ repo)), [])

/-! ## The fleet-level baseline reset (`reset_base_environment`)

`reset_base_environment` (src/observing_environment.rs lines 209-256) first
loads the baseline map; per-repository work is modelled by two outcome
oracles, `co repo branch` for `self.checkout_branch(repo, branch)` and
`ri repo version` for `self.reset_index_to_version(repo, version)`, plus an
ordered trace of which per-repository operations were invoked. -/

/-- A per-repository operation invoked by `reset_base_environment`. -/
inductive RepoOp
  | checkoutBranchOp (repo branch : String)
  | resetIndexOp (repo version : String)
deriving DecidableEq, Repr

/-- Boolean `Result::is_err`. -/
def isErrB {ε α : Type} (x : Except ε α) : Bool :=
  match x with
  | .error _ => true
  | .ok _ => false

/-- Embedding of `ObservingEnvironment::reset_base_environment`.
`base` is the outcome of `get_base_env_versions` (the baseline map in
`BTreeMap` iteration order).  With a non-empty `run_branch` every entry gets
a `checkout_branch` attempt and the failures (`run_branch_misses`) fall
through to `reset_index_to_version`; with an empty `run_branch` every entry
falls through directly.  The errors of the reset calls are collected; the
result is `Ok` exactly when that collection is empty. -/
def reset_base_environment (base : Except ObsEnvError (List (String × String)))
    (run_branch : String)
    (co ri : String → String → Except ObsEnvError Unit) :
    List RepoOp × Except (List ObsEnvError) Unit :=
  match base with
  | .error err_get_base_env_versions => ([], .error [err_get_base_env_versions])
  | .ok obs_env_versions =>
    let run_branch_misses : List (String × String) :=
      if run_branch.length > 0 then
        obs_env_versions.filterMap
          (fun rv => if isErrB (co rv.1 run_branch) then some rv else none)
      else obs_env_versions
    let reset_result : List ObsEnvError :=
      (run_branch_misses.map (fun rv => ri rv.1 rv.2)).filterMap
        (fun result => match result with
          | .error e => some e
          | .ok _ => none)
    let trace : List RepoOp :=
      (if run_branch.length > 0 then
        obs_env_versions.map (fun rv => RepoOp.checkoutBranchOp rv.1 run_branch)
      else [])
      ++ run_branch_misses.map (fun rv => RepoOp.resetIndexOp rv.1 rv.2)
    (trace, if reset_result.isEmpty then .ok () else .error reset_result)

/-! ## The replication consumer loop (`obs_env_sidecar::run`)

One iteration of the receive loop (src/obs_env_sidecar.rs lines 116-147) is
modelled by `process_message` over an oracle of per-stage outcomes.
`ActionData::get_action` is not part of the provided sources (only its call
site is), so it is an opaque oracle stage; both of its outcomes keep the
loop running, so nothing about the claims depends on its definition. -/

/-- Embedding of the event record `ActionData` (src/sasquatch/log_summary.rs
lines 24-30). -/
structure ActionData where
  timestamp : Int
  action : String
  repository : String
  branch_name : String
  user : String
deriving DecidableEq, Repr

/-- Per-stage outcomes for one received message: the schema-registry Avro
decode, the Avro-value-to-`ActionData` conversion, `get_action`, and the
`run_manage_obs_env` call.  Payloads and decoded Avro values are `Nat`
identifiers; errors are their display strings. -/
structure SidecarStream where
  avroDecode : Nat → Except String Nat
  fromValueActionData : Nat → Except String ActionData
  getAction : ActionData → Except String String
  runManage : ActionData → String → Except String Unit

/-- What one loop iteration does to the enclosing `run` function: proceed to
the next message, or return `Err` from `run` (terminating the loop). -/
inductive IterOutcome
  | nextMessage
  | terminated (err : String)
deriving DecidableEq, Repr

/-- Embedding of one iteration of the `obs_env_sidecar::run` receive loop
(src/obs_env_sidecar.rs lines 117-146).  A message-retrieval error is
logged and skipped; `avro_decoder.decode(payload)?` propagates its error out
of `run` via `?`; a `from_value::<ActionData>` failure, a `get_action`
failure and a `run_manage_obs_env` failure are each logged and skipped. -/
def process_message (d : SidecarStream) (message : Except String Nat) : IterOutcome :=
  match message with
  | .error _ => IterOutcome.nextMessage
  | .ok payload =>
    match d.avroDecode payload with
    | .error e => IterOutcome.terminated e
    | .ok value =>
      match d.fromValueActionData value with
      | .error _ => IterOutcome.nextMessage
      | .ok action_data =>
        match d.getAction action_data with
        | .error _ => IterOutcome.nextMessage
        | .ok action =>
          match d.runManage action_data action with
          | .error _ => IterOutcome.nextMessage
          | .ok _ => IterOutcome.nextMessage

/-! ## Concrete oracles used in witnesses and counterexamples -/

/-- Sidecar oracle in which the schema-registry Avro decode fails and every
other stage succeeds. -/
def sidecarDecodeFail : SidecarStream where
  avroDecode := fun _ => .error "failed to decode"
  fromValueActionData := fun _ => .ok ⟨0, "reset", "", "", "user"⟩
  getAction := fun _ => .ok "reset"
  runManage := fun _ _ => .ok ()

/-- Git oracle in which every call succeeds; both the tag `refs/tags/...`
lookup and the remote branch lookup resolve. -/
def gitRepoBothRefs : GitRepo where
  findRemote := fun _ => .ok ()
  fetchRes := fun _ => .ok ()
  revparseSingle := fun _ => .ok 5
  findBranch := fun _ => .ok 1
  refPeelToCommit := fun _ => .ok 42
  peelObjToCommit := fun _ => .ok 42
  branchCreate := fun name _ => if name = "temp" then .ok 2 else .ok 3
  refName := fun ref =>
    if ref = 2 then some "refs/heads/temp"
    else if ref = 1 then some "refs/remotes/origin/tkt"
    else some "refs/heads/tkt"
  setHeadRes := fun _ => .ok ()
  resetRes := fun _ => .ok ()

/-- Git oracle in which the tag resolves but peeling the tag object to a
commit fails. -/
def gitRepoPeelFail : GitRepo where
  findRemote := fun _ => .ok ()
  fetchRes := fun _ => .ok ()
  revparseSingle := fun _ => .ok 7
  findBranch := fun _ => .ok 1
  refPeelToCommit := fun _ => .ok 42
  peelObjToCommit := fun _ => .error ⟨"the object is not a commit"⟩
  branchCreate := fun _ _ => .ok 2
  refName := fun _ => some "refs/heads/temp"
  setHeadRes := fun _ => .ok ()
  resetRes := fun _ => .ok ()

/-- Git oracle in which the initial fetch fails and peeling always
succeeds. -/
def gitRepoFetchFail : GitRepo where
  findRemote := fun _ => .ok ()
  fetchRes := fun _ => .error ⟨"network error"⟩
  revparseSingle := fun _ => .ok 5
  findBranch := fun _ => .ok 1
  refPeelToCommit := fun _ => .ok 42
  peelObjToCommit := fun o => .ok o
  branchCreate := fun _ _ => .ok 2
  refName := fun _ => some "refs/heads/temp"
  setHeadRes := fun _ => .ok ()
  resetRes := fun _ => .ok ()

/-- Checkout-branch oracle for the fleet reset: repository `"A"` has the
override branch, every other repository does not. -/
def coSample : String → String → Except ObsEnvError Unit :=
  fun repo _ => if repo = "A" then .ok () else .error (ObsEnvError.GIT "branch not found")

/-- Reset-index oracle for the fleet reset: every reset succeeds. -/
def riSample : String → String → Except ObsEnvError Unit :=
  fun _ _ => .ok ()

/-! ## C9: a baseline-load failure aborts the whole reset -/

/-- Claim C9: when the baseline definitions source cannot be fetched, opened
or read (`get_base_env_versions` returns an error), `reset_base_environment`
returns the single aggregate error `[e]` and invokes no per-repository
operation at all (empty operation trace). -/
theorem c9_baseline_failure_aborts (e : ObsEnvError) (run_branch : String)
    (co ri : String → String → Except ObsEnvError Unit) :
    reset_base_environment (Except.error e) run_branch co ri
      = ([], Except.error [e]) := rfl

/-! ## C5: which inputs the tag codec leaves unchanged -/

/-- Claim C5, counterexample: `"1.2."` fails the semantic-version grammar
`MAJOR.MINOR.PATCH[{a|b|rc}[N]]` (its PATCH field is empty), yet
`expand_version_to_tag` does not return it unchanged: the `VALID_VERSION`
regular expression accepts it, so the codec produces `"v1.2."`. -/
theorem c5_counterexample :
    parseSemVer "1.2." = none ∧ expand_version_to_tag "1.2." ≠ "1.2." := by
  decide

/-- Claim C5 as amended: the tag codec returns its input unchanged for every
input rejected by the `VALID_VERSION` matcher (strings not starting with
`digits* '.' digits* '.'`), not for every input outside the full
semantic-version grammar. -/
theorem c5_opaque_unchanged (s : String) (h : valid_version_is_match s = false) :
    expand_version_to_tag s = s := by
  unfold valid_version_is_match at h
  simp [expand_version_to_tag, expand_version_to_tagL, h]

/-- Claim C5, witness: `"main"` fails the matcher and is returned
unchanged. -/
theorem c5_witness : expand_version_to_tag "main" = "main" :=
  c5_opaque_unchanged "main" rfl

/-! ## C4: the VALID_VERSION matcher -/

/-- Claim C4, counterexample: `".."` does not start with a digit, yet
`VALID_VERSION` accepts it (all three digit groups may be empty), so the
matcher does not reject every string that fails to start with a digit. -/
theorem c4_counterexample :
    valid_version_is_match ".." = true ∧ startsWithDigit ".." = false := by
  decide

/-- Claim C4 as amended: the matcher accepts `"1.2.3"`, `"10.200.300"`,
`"1.20.3a1"`, `"1.20.3b1"`, `"1.20.3rc1"`, rejects `"main"`, `"develop"`,
`"ticket/DM-12345"`, and rejects every string whose first character is
neither a digit nor a period (a string headed by a period may still be
accepted, as the counterexample shows). -/
theorem c4_matcher :
    (valid_version_is_match "1.2.3" = true
      ∧ valid_version_is_match "10.200.300" = true
      ∧ valid_version_is_match "1.20.3a1" = true
      ∧ valid_version_is_match "1.20.3b1" = true
      ∧ valid_version_is_match "1.20.3rc1" = true
      ∧ valid_version_is_match "main" = false
      ∧ valid_version_is_match "develop" = false
      ∧ valid_version_is_match "ticket/DM-12345" = false)
    ∧ ∀ s : String, startsWithDigitOrDot s = false → valid_version_is_match s = false := by
  refine ⟨by decide, ?_⟩
  intro s h
  unfold startsWithDigitOrDot at h
  unfold valid_version_is_match validVersionIsMatchL
  cases hd : s.data with
  | nil => simp
  | cons c rest =>
    rw [hd] at h
    simp only [Bool.or_eq_false_iff] at h
    rw [List.dropWhile_cons, if_neg (by simp [h.1])]
    split
    · next heq =>
      injection heq with h1 _
      exact absurd h1 (by simpa using h.2)
    · rfl

/-- Claim C4, witness: `"w.2023.13"` starts with neither a digit nor a
period and is rejected. -/
theorem c4_witness : valid_version_is_match "w.2023.13" = false :=
  c4_matcher.2 "w.2023.13" rfl

/-! ## C1: the sidecar receive loop on undecodable events -/

/-- Claim C1, counterexample: an event whose payload fails the
schema-registry Avro decode does not let the loop proceed — the `?` on
`avro_decoder.decode(payload)` propagates the error out of
`obs_env_sidecar::run`, terminating the receive loop. -/
theorem c1_counterexample :
    process_message sidecarDecodeFail (Except.ok 0) ≠ IterOutcome.nextMessage
    ∧ process_message sidecarDecodeFail (Except.ok 0)
        = IterOutcome.terminated "failed to decode" := by
  decide

/-- Claim C1 as amended: one loop iteration makes `run` return an error
exactly when the message was retrieved and its schema-registry Avro decode
failed; every other failure (message retrieval, `from_value::<ActionData>`,
`get_action`, `run_manage_obs_env`) is logged and the loop proceeds to the
next event. -/
theorem c1_decode_terminates_iff (d : SidecarStream) (message : Except String Nat)
    (e : String) :
    process_message d message = IterOutcome.terminated e
      ↔ ∃ payload, message = Except.ok payload ∧ d.avroDecode payload = Except.error e := by
  cases message with
  | error m => simp [process_message]
  | ok p =>
    cases hd : d.avroDecode p with
    | error e2 => simp [process_message, hd, eq_comm]
    | ok v =>
      cases hf : d.fromValueActionData v with
      | error m => simp [process_message, hd, hf]
      | ok ad =>
        cases hg : d.getAction ad with
        | error m => simp [process_message, hd, hf, hg]
        | ok act =>
          cases hr : d.runManage ad act with
          | error m => simp [process_message, hd, hf, hg, hr]
          | ok u => simp [process_message, hd, hf, hg, hr]

/-- Claim C1, witness: instantiation of the amended characterization at a
concrete decode-failing stream. -/
theorem c1_witness :
    process_message sidecarDecodeFail (Except.ok 1) = IterOutcome.terminated "failed to decode" :=
  (c1_decode_terminates_iff sidecarDecodeFail (Except.ok 1) "failed to decode").mpr
    ⟨1, rfl, rfl⟩

/-! ## C7: the tag always wins over the branch -/

/-- Claim C7: in `checkout_tag_or_branch` the tag lookup is performed first;
whenever it succeeds — in particular when a branch named by the original
version string also exists (`hbranch`) — the computation is exactly the tag
path and the branch fallback is never entered. -/
theorem c7_tag_wins (r : GitRepo) (tag version : String) (tr : List GitEffect)
    (object : Nat)
    (h1 : r.findRemote "origin" = Except.ok ())
    (h2 : r.fetchRes [""] = Except.ok ())
    (htag : r.revparseSingle ("refs/tags/" ++ tag) = Except.ok object)
    (_hbranch : isErrB (r.findBranch ("origin/" ++ version)) = false) :
    checkout_tag_or_branch r tag version tr
      = checkout_tag r version object ("refs/tags/" ++ tag)
          (tr ++ [GitEffect.fetch [""] true]) := by
  unfold checkout_tag_or_branch
  rw [h1, h2, htag]

/-- Claim C7, witness: a repository state where both the encoded tag and the
same-named branch exist takes the tag path. -/
theorem c7_witness :
    checkout_tag_or_branch gitRepoBothRefs "v1.0.0" "1.0.0" []
      = checkout_tag gitRepoBothRefs "1.0.0" 5 ("refs/tags/" ++ "v1.0.0")
          [GitEffect.fetch [""] true] :=
  c7_tag_wins gitRepoBothRefs "v1.0.0" "1.0.0" [] 5 rfl rfl rfl rfl

/-! ## C10: the "temp" branch side effect of checkout_branch -/

/-- Claim C10: every successful `checkout_branch` run force-creates (or
force-moves) the local branch `"temp"` at the target commit and points HEAD
at it, and only afterwards force-creates the branch with the requested name;
the full effect trace is, in order: fetch of the branch, forced creation of
`"temp"`, HEAD moved to `"temp"`, forced creation of the requested branch,
hard reset, HEAD moved to the requested branch.  Any pre-existing local
branch called `"temp"` is therefore overwritten (force flag `true`). -/
theorem c10_temp_branch_effect (r : GitRepo) (branch_name : String)
    (tr : List GitEffect) (branch_reference : GitRef) (commit : Nat)
    (temp_branch local_branch : GitRef) (object : Nat)
    (temp_refname upstream_name refname : String)
    (h1 : r.findRemote "origin" = Except.ok ())
    (h2 : r.fetchRes [branch_name] = Except.ok ())
    (h3 : r.findBranch ("origin/" ++ branch_name) = Except.ok branch_reference)
    (h4 : r.refPeelToCommit branch_reference = Except.ok commit)
    (h5 : r.branchCreate "temp" commit = Except.ok temp_branch)
    (h6 : r.refName temp_branch = some temp_refname)
    (h7 : r.setHeadRes temp_refname = Except.ok ())
    (h8 : r.branchCreate branch_name commit = Except.ok local_branch)
    (h9 : r.refName branch_reference = some upstream_name)
    (h10 : r.revparseSingle upstream_name = Except.ok object)
    (h11 : r.resetRes object = Except.ok ())
    (h12 : r.refName local_branch = some refname)
    (h13 : r.setHeadRes refname = Except.ok ()) :
    checkout_branch r branch_name tr
      = (Except.ok (),
         tr ++ [GitEffect.fetch [branch_name] false,
                GitEffect.branchCreate "temp" commit true,
                GitEffect.setHead temp_refname,
                GitEffect.branchCreate branch_name commit true,
                GitEffect.resetHard object,
                GitEffect.setHead refname]) := by
  unfold checkout_branch
  simp only [h1, h2, h3, h4, h5, h6, h7, h8, h9, h10, h11, h12, h13]

/-- Claim C10, witness: concrete successful branch checkout exhibiting the
`"temp"` branch overwrite before the requested branch is created. -/
theorem c10_witness :
    checkout_branch gitRepoBothRefs "tkt" []
      = (Except.ok (),
         [GitEffect.fetch ["tkt"] false,
          GitEffect.branchCreate "temp" 42 true,
          GitEffect.setHead "refs/heads/temp",
          GitEffect.branchCreate "tkt" 42 true,
          GitEffect.resetHard 5,
          GitEffect.setHead "refs/heads/tkt"]) :=
  c10_temp_branch_effect gitRepoBothRefs "tkt" [] 1 42 2 3 5
    "refs/heads/temp" "refs/remotes/origin/tkt" "refs/heads/tkt"
    rfl rfl rfl rfl rfl rfl rfl rfl rfl rfl rfl rfl rfl

/-! ## C2: two-tier baseline reset with an override branch -/

/-- Claim C2: with a non-empty override branch, (i) the operation trace is a
`checkout_branch` attempt at the override branch for every baseline entry in
order, followed by `reset_index_to_version` for exactly the entries whose
override checkout failed; (ii) a reset to the baseline version happens for
`(repo, version)` iff it is a baseline entry whose override checkout failed
— repositories whose override checkout succeeded are never reset; (iii) the
result is `Ok` iff the collection of per-repository reset failures is empty
and otherwise `Err` with exactly that collection. -/
theorem c2_override_then_baseline
    (obs_env_versions : List (String × String)) (run_branch : String)
    (co ri : String → String → Except ObsEnvError Unit)
    (h : 0 < run_branch.length) :
    ((reset_base_environment (Except.ok obs_env_versions) run_branch co ri).1
      = obs_env_versions.map (fun rv => RepoOp.checkoutBranchOp rv.1 run_branch)
        ++ (obs_env_versions.filterMap
              (fun rv => if isErrB (co rv.1 run_branch) then some rv else none)).map
            (fun rv => RepoOp.resetIndexOp rv.1 rv.2))
    ∧ (∀ repo version,
        RepoOp.resetIndexOp repo version
            ∈ (reset_base_environment (Except.ok obs_env_versions) run_branch co ri).1
          ↔ ((repo, version) ∈ obs_env_versions ∧ isErrB (co repo run_branch) = true))
    ∧ ((reset_base_environment (Except.ok obs_env_versions) run_branch co ri).2
        = (if ((obs_env_versions.filterMap
                  (fun rv => if isErrB (co rv.1 run_branch) then some rv else none)).filterMap
                (fun rv => match ri rv.1 rv.2 with
                  | .error e => some e
                  | .ok _ => none)).isEmpty then Except.ok ()
           else Except.error
              ((obs_env_versions.filterMap
                  (fun rv => if isErrB (co rv.1 run_branch) then some rv else none)).filterMap
                (fun rv => match ri rv.1 rv.2 with
                  | .error e => some e
                  | .ok _ => none)))) := by
  refine ⟨?_, ?_, ?_⟩
  · simp [reset_base_environment, if_pos h]
  · intro repo version
    simp only [reset_base_environment, if_pos h, List.mem_append, List.mem_map,
      List.mem_filterMap]
    constructor
    · rintro (⟨rv, _, hco⟩ | ⟨rv, ⟨rv2, hmem, hsome⟩, heq⟩)
      · simp at hco
      · split at hsome
        · next hc =>
          injection hsome with h2
          injection heq with h3 h4
          subst h2
          constructor
          · have hrv : rv2 = (repo, version) := Prod.ext h3 h4
            rwa [hrv] at hmem
          · rwa [h3] at hc
        · cases hsome
    · rintro ⟨hmem, hc⟩
      right
      exact ⟨(repo, version), ⟨(repo, version), hmem, by rw [if_pos hc]⟩, rfl⟩
  · simp only [reset_base_environment, if_pos h, List.filterMap_map]
    rfl

/-- Claim C2, witness: two baseline entries, the override branch exists only
in `"A"`; `"B"` is reset to its baseline version. -/
theorem c2_witness :
    RepoOp.resetIndexOp "B" "2.0.0"
      ∈ (reset_base_environment (Except.ok [("A", "1.0.0"), ("B", "2.0.0")])
          "tkt" coSample riSample).1 :=
  ((c2_override_then_baseline [("A", "1.0.0"), ("B", "2.0.0")] "tkt" coSample riSample
      (by decide)).2.1 "B" "2.0.0").mpr (by decide)

/-! ## C6: typed failures versus the peel panic -/

/-- Every outcome of `checkout_branch` is success or a typed propagated
`git2::Error`; the branch path contains no `unwrap`. -/
theorem checkout_branch_result (r : GitRepo) (bn : String) (tr : List GitEffect) :
    (∃ tr2, checkout_branch r bn tr = (Except.ok (), tr2))
    ∨ ∃ e tr2, checkout_branch r bn tr = (Except.error (GitFailure.err e), tr2) := by
  unfold checkout_branch
  repeat' split
  all_goals first
    | exact Or.inl ⟨_, rfl⟩
    | exact Or.inr ⟨_, _, rfl⟩

/-- When peeling the tag object succeeds, every outcome of `checkout_tag` is
success or a typed propagated `git2::Error`. -/
theorem checkout_tag_result (r : GitRepo) (version : String) (object : Nat)
    (spec : String) (tr : List GitEffect) (c : Nat)
    (hp : r.peelObjToCommit object = Except.ok c) :
    (∃ tr2, checkout_tag r version object spec tr = (Except.ok (), tr2))
    ∨ ∃ e tr2, checkout_tag r version object spec tr
        = (Except.error (GitFailure.err e), tr2) := by
  unfold checkout_tag
  simp only [hp]
  repeat' split
  all_goals first
    | exact Or.inl ⟨_, rfl⟩
    | exact Or.inr ⟨_, _, rfl⟩

/-- When peeling always succeeds, every outcome of `checkout_tag_or_branch`
is success or a typed propagated `git2::Error`. -/
theorem checkout_tag_or_branch_result (r : GitRepo) (tag version : String)
    (tr : List GitEffect)
    (hpeel : ∀ o, ∃ c, r.peelObjToCommit o = Except.ok c) :
    (∃ tr2, checkout_tag_or_branch r tag version tr = (Except.ok (), tr2))
    ∨ ∃ e tr2, checkout_tag_or_branch r tag version tr
        = (Except.error (GitFailure.err e), tr2) := by
  unfold checkout_tag_or_branch
  split
  · exact Or.inr ⟨_, _, rfl⟩
  · split
    · exact Or.inr ⟨_, _, rfl⟩
    · split
      · next object _ =>
        obtain ⟨c, hc⟩ := hpeel object
        exact checkout_tag_result r version object _ _ c hc
      · exact checkout_branch_result r version _

/-- Claim C6, counterexample: the step `object.peel_to_commit().unwrap()` of
the tag path panics instead of producing a typed failure value: with a
resolvable tag whose object cannot be peeled to a commit,
`reset_index_to_version` ends in a panic, not in an `ObsEnvError`. -/
theorem c6_counterexample :
    (reset_index_to_version (Except.ok gitRepoPeelFail) "ts_wep" "1.0.0").1
      = RunOutcome.panicStop "the object is not a commit" := by
  decide

/-- Claim C6 as amended: provided the tag-object peel succeeds (the one step
the code unwraps), every run of `reset_index_to_version` on an opened
repository either succeeds or returns the typed failure
`ObsEnvError::GIT` carrying the repository name, the attempted tag spec, the
version string and the underlying cause; no other step panics. -/
theorem c6_typed_failures (r : GitRepo) (repo version : String)
    (hpeel : ∀ o, ∃ c, r.peelObjToCommit o = Except.ok c) :
    (reset_index_to_version (Except.ok r) repo version).1 = RunOutcome.ok
    ∨ ∃ cause, (reset_index_to_version (Except.ok r) repo version).1
        = RunOutcome.obsErr (ObsEnvError.GIT
            ("Could not checkout tag or branch for " ++ repo ++ "@"
              ++ expand_version_to_tag version ++ "[" ++ version ++ "]: " ++ cause)) := by
  rcases checkout_tag_or_branch_result r (expand_version_to_tag version) version []
      hpeel with ⟨tr2, hok⟩ | ⟨e, tr2, he⟩
  all_goals simp only [reset_index_to_version]
  · rw [hok]; exact Or.inl rfl
  · rw [he]; exact Or.inr ⟨e.message, rfl⟩

/-- Claim C6, witness: instantiation at a repository whose fetch fails —
the outcome is the typed `GIT` failure message. -/
theorem c6_witness :
    (reset_index_to_version (Except.ok gitRepoFetchFail) "cwfs" "1.2.3").1 = RunOutcome.ok
    ∨ ∃ cause, (reset_index_to_version (Except.ok gitRepoFetchFail) "cwfs" "1.2.3").1
        = RunOutcome.obsErr (ObsEnvError.GIT
            ("Could not checkout tag or branch for " ++ "cwfs" ++ "@"
              ++ expand_version_to_tag "1.2.3" ++ "[" ++ "1.2.3" ++ "]: " ++ cause)) :=
  c6_typed_failures gitRepoFetchFail "cwfs" "1.2.3" (fun o => ⟨o, rfl⟩)

/-! ## C3: how the baseline map is actually keyed -/

/-- Claim C3, counterexample: with managed repository `"cwfs"` and the single
definitions line `"cwfsx=1.0"` — a line that starts with `"cwfs"` but not
with `"cwfs="` — `get_base_env_versions` selects that line and the produced
map key is the regex capture `"cwfsx"`, which is not a managed repository
name. -/
theorem c3_counterexample :
    get_base_env_versions_entries ["cwfs".data] ["cwfsx=1.0".data]
      = [("cwfsx".data, "1.0".data)]
    ∧ "cwfsx".data ∉ ["cwfs".data] := by
  decide

/-- Claim C3 as amended: for each managed name the code selects the first
line satisfying `starts_with(name)` (the `=` is not required to follow the
name), extracts the `(name, version)` pair by the `NAME=VERSION` regex
around the line's first `=` — so the key is the regex capture, which can
differ from the managed name — and silently drops names with no matching
line as well as selected lines the regex does not match. -/
theorem c3_entries_characterization (repositories base_env_def : List (List Char)) :
    get_base_env_versions_entries repositories base_env_def
      = repositories.filterMap
          (fun repo_name =>
            (base_env_def.find? (fun line => repo_name.isPrefixOf line)).bind
              repoVersionCaptures)
    ∧ ∀ repo_name,
        base_env_def.find? (fun line => repo_name.isPrefixOf line) = none →
          get_base_env_versions_entries [repo_name] base_env_def = [] := by
  constructor
  · unfold get_base_env_versions_entries
    rw [List.filterMap_map, List.filterMap_filterMap]
    simp [Function.comp]
  · intro repo_name hnone
    simp [get_base_env_versions_entries, hnone]

/-- Claim C3, witness: a managed name with no matching line is silently
absent. -/
theorem c3_witness :
    get_base_env_versions_entries ["atmospec".data] ["cwfs=1.0".data] = [] :=
  c3_entries_characterization ["atmospec".data] ["cwfs=1.0".data] |>.2
    "atmospec".data (by decide)


/-! ## Auxiliary lemmas for the tag-codec analysis -/

/-- Dropping while `p` holds skips a prefix on which `p` holds everywhere. -/
theorem dropWhile_append_all {p : Char → Bool} {l1 l2 : List Char}
    (h : ∀ c ∈ l1, p c = true) :
    (l1 ++ l2).dropWhile p = l2.dropWhile p := by
  induction l1 with
  | nil => rfl
  | cons a t ih =>
    rw [List.cons_append, List.dropWhile_cons, if_pos (h a (List.mem_cons_self a t))]
    exact ih (fun c hc => h c (List.mem_cons_of_mem a hc))

/-- A non-digit character does not occur in an all-digit list. -/
theorem not_mem_of_allDigits {c : Char} {l : List Char}
    (hl : allDigits l = true) (hc : c.isDigit = false) : c ∉ l := by
  intro hm
  have := List.all_eq_true.mp hl c hm
  rw [hc] at this
  cases this

/-- The digit prefix extracted by `takeWhile` is all digits. -/
theorem allDigits_takeWhile (l : List Char) :
    allDigits (l.takeWhile Char.isDigit) = true := by
  simp [allDigits, List.all_eq_true]

/-- Single-character replacement distributes over append. -/
theorem replChar_append (c : Char) (rep l1 l2 : List Char) :
    replChar c rep (l1 ++ l2) = replChar c rep l1 ++ replChar c rep l2 := by
  induction l1 with
  | nil => rfl
  | cons x xs ih =>
    rw [List.cons_append]
    by_cases hx : x = c
    · simp [replChar, hx, ih, List.append_assoc]
    · simp [replChar, hx, ih]

/-- Single-character replacement is the identity when the pattern is
absent. -/
theorem replChar_of_not_mem {c : Char} {l : List Char} (rep : List Char)
    (h : c ∉ l) : replChar c rep l = l := by
  induction l with
  | nil => rfl
  | cons x xs ih =>
    have hx : ¬(x = c) := fun e => h (e ▸ List.mem_cons_self x xs)
    rw [replChar, if_neg hx, ih (fun hm => h (List.mem_cons_of_mem x hm))]

/-- The `"rc"` replacement is the identity when no `'r'` occurs. -/
theorem replRC_of_not_mem (rep : List Char) :
    ∀ l : List Char, 'r' ∉ l → replRC rep l = l
  | [], _ => rfl
  | [x], _ => rfl
  | x :: y :: xs, h => by
    have hx : ¬(x = 'r') := fun e => h (e ▸ List.mem_cons_self x (y :: xs))
    rw [replRC, if_neg hx,
      replRC_of_not_mem rep (y :: xs) (fun hm => h (List.mem_cons_of_mem x hm))]

/-- The `"rc"` replacement skips a head that is not `'r'`. -/
theorem replRC_cons_ne (rep : List Char) {x : Char} (hx : ¬(x = 'r'))
    (l : List Char) : replRC rep (x :: l) = x :: replRC rep l := by
  cases l with
  | nil => rfl
  | cons y t => rw [replRC, if_neg hx]

/-- The `"rc"` replacement passes over a prefix containing no `'r'`. -/
theorem replRC_append_of_not_mem (rep : List Char) :
    ∀ l1 l2 : List Char, 'r' ∉ l1 → replRC rep (l1 ++ l2) = l1 ++ replRC rep l2
  | [], _, _ => rfl
  | x :: l1, l2, h => by
    have hx : ¬(x = 'r') := fun e => h (e ▸ List.mem_cons_self x l1)
    have htail : 'r' ∉ l1 := fun hm => h (List.mem_cons_of_mem x hm)
    rw [List.cons_append, replRC_cons_ne rep hx,
      replRC_append_of_not_mem rep l1 l2 htail, List.cons_append]

/-- The `"rc"` replacement fires on a leading `"rc"`. -/
theorem replRC_rc (rep n : List Char) :
    replRC rep ('r' :: 'c' :: n) = rep ++ replRC rep n := by
  simp [replRC]

/-- Splitting two appends at a separator absent from both prefixes. -/
theorem append_cons_inj {c : Char} :
    ∀ {a1 a2 r1 r2 : List Char}, c ∉ a1 → c ∉ a2 →
      a1 ++ c :: r1 = a2 ++ c :: r2 → a1 = a2 ∧ r1 = r2
  | [], [], r1, r2, _, _, h => by
    simpa using h
  | [], x :: a2, r1, r2, _, h2, h => by
    rw [List.nil_append, List.cons_append] at h
    injection h with hx _
    exact absurd (hx ▸ List.mem_cons_self x a2) h2
  | x :: a1, [], r1, r2, h1, _, h => by
    rw [List.nil_append, List.cons_append] at h
    injection h with hx _
    exact absurd (hx ▸ List.mem_cons_self x a1) (fun hm => h1 hm)
  | x :: a1, y :: a2, r1, r2, h1, h2, h => by
    rw [List.cons_append, List.cons_append] at h
    injection h with hxy ht
    obtain ⟨ha, hr⟩ := append_cons_inj (fun hm => h1 (List.mem_cons_of_mem x hm))
      (fun hm => h2 (List.mem_cons_of_mem y hm)) ht
    exact ⟨by rw [hxy, ha], hr⟩

/-- Splitting two appends of an all-digit prefix and a suffix that does not
start with a digit. -/
theorem digits_append_inj :
    ∀ {p1 p2 s1 s2 : List Char}, allDigits p1 = true → allDigits p2 = true →
      headNotDigit s1 → headNotDigit s2 → p1 ++ s1 = p2 ++ s2 → p1 = p2 ∧ s1 = s2
  | [], [], s1, s2, _, _, _, _, h => ⟨rfl, by simpa using h⟩
  | [], x :: p2, s1, s2, _, hp2, hs1, _, h => by
    rw [List.nil_append, List.cons_append] at h
    have hx : x.isDigit = true := List.all_eq_true.mp hp2 x (List.mem_cons_self x p2)
    rw [h] at hs1
    simp only [headNotDigit] at hs1
    rw [hx] at hs1
    cases hs1
  | x :: p1, [], s1, s2, hp1, _, _, hs2, h => by
    rw [List.nil_append, List.cons_append] at h
    have hx : x.isDigit = true := List.all_eq_true.mp hp1 x (List.mem_cons_self x p1)
    rw [← h] at hs2
    simp only [headNotDigit] at hs2
    rw [hx] at hs2
    cases hs2
  | x :: p1, y :: p2, s1, s2, hp1, hp2, hs1, hs2, h => by
    rw [List.cons_append, List.cons_append] at h
    injection h with hxy ht
    obtain ⟨hp, hs⟩ := digits_append_inj
      (by simpa [allDigits] using (List.all_eq_true.mp hp1 · <| List.mem_cons_of_mem x ·))
      (by simpa [allDigits] using (List.all_eq_true.mp hp2 · <| List.mem_cons_of_mem y ·))
      hs1 hs2 ht
    exact ⟨by rw [hxy, hp], hs⟩

/-- The prerelease words are never empty. -/
theorem preWord_ne_nil (k : PreKind) : preWord k ≠ [] := by
  cases k <;> simp [preWord, alphaWord, betaWord, rcWord]

/-- The three prerelease words are prefix-distinguishing: an equality of
`preWord k ++ n` decomposes uniquely. -/
theorem preWord_append_inj {k1 k2 : PreKind} {n1 n2 : List Char}
    (h : preWord k1 ++ n1 = preWord k2 ++ n2) : k1 = k2 ∧ n1 = n2 := by
  cases k1 <;> cases k2 <;>
    simp [preWord, alphaWord, betaWord, rcWord, List.cons_append,
      List.nil_append, List.cons.injEq] at h
  all_goals exact ⟨rfl, h⟩

/-- A tag-name prerelease suffix never starts with a digit. -/
theorem headNotDigit_preTagSuffix (pre : Option (PreKind × List Char)) :
    headNotDigit (preTagSuffix pre) := by
  cases pre with
  | none => trivial
  | some kn =>
    obtain ⟨k, n⟩ := kn
    cases k <;> simp [preTagSuffix, preWord, alphaWord, betaWord, rcWord, headNotDigit]

/-- The tag-name prerelease suffix determines the prerelease field. -/
theorem preTagSuffix_inj {pre1 pre2 : Option (PreKind × List Char)}
    (h : preTagSuffix pre1 = preTagSuffix pre2) : pre1 = pre2 := by
  cases pre1 with
  | none =>
    cases pre2 with
    | none => rfl
    | some kn =>
      obtain ⟨k, n⟩ := kn
      simp only [preTagSuffix] at h
      exact absurd h.symm (by
        intro hc
        exact preWord_ne_nil k (List.append_eq_nil.mp hc).1)
  | some kn =>
    obtain ⟨k, n⟩ := kn
    cases pre2 with
    | none =>
      simp only [preTagSuffix] at h
      exact absurd h (by
        intro hc
        exact preWord_ne_nil k (List.append_eq_nil.mp hc).1)
    | some kn2 =>
      obtain ⟨k2, n2⟩ := kn2
      simp only [preTagSuffix] at h
      obtain ⟨hk, hn⟩ := preWord_append_inj h
      rw [hk, hn]

/-- On well-formed specs the tag renderer is injective. -/
theorem renderTag_inj {v1 v2 : VersionSpec} (h1 : specWF v1) (h2 : specWF v2)
    (h : renderTag v1 = renderTag v2) : v1 = v2 := by
  obtain ⟨-, hd1, -, hd2, -, hd3, -⟩ := h1
  obtain ⟨-, he1, -, he2, -, he3, -⟩ := h2
  have hdot : ('.' : Char).isDigit = false := by decide
  unfold renderTag at h
  injection h with hv h
  obtain ⟨hmaj, h⟩ := append_cons_inj (not_mem_of_allDigits hd1 hdot)
    (not_mem_of_allDigits he1 hdot) h
  obtain ⟨hmin, h⟩ := append_cons_inj (not_mem_of_allDigits hd2 hdot)
    (not_mem_of_allDigits he2 hdot) h
  obtain ⟨hpat, h⟩ := digits_append_inj hd3 he3
    (headNotDigit_preTagSuffix v1.pre) (headNotDigit_preTagSuffix v2.pre) h
  have hpre := preTagSuffix_inj h
  cases v1; cases v2
  simp_all

/-- A list whose `isEmpty` is `false` is not `[]`. -/
theorem isEmpty_false_ne_nil {l : List Char} (h : l.isEmpty = false) : l ≠ [] := by
  simp [List.isEmpty_iff] at h
  exact h

/-- Well-formedness of the spec assembled by a successful parse. -/
theorem specWF_of_parts {r2 r4 : List Char} (s : List Char)
    (hne : ¬((s.takeWhile Char.isDigit).isEmpty
        || (r2.takeWhile Char.isDigit).isEmpty
        || (r4.takeWhile Char.isDigit).isEmpty) = true)
    (pre : Option (PreKind × List Char))
    (hpre : ∀ k n, pre = some (k, n) → allDigits n = true) :
    specWF ⟨s.takeWhile Char.isDigit, r2.takeWhile Char.isDigit,
            r4.takeWhile Char.isDigit, pre⟩ := by
  simp only [Bool.not_eq_true, Bool.or_eq_false_iff] at hne
  obtain ⟨⟨hne1, hne2⟩, hne3⟩ := hne
  exact ⟨isEmpty_false_ne_nil hne1, allDigits_takeWhile s,
    isEmpty_false_ne_nil hne2, allDigits_takeWhile r2,
    isEmpty_false_ne_nil hne3, allDigits_takeWhile r4, hpre⟩

/-- A successful parse is sound: the input is the rendering of the returned
spec and the spec is well-formed. -/
theorem parseSemVer_sound {s : List Char} {v : VersionSpec}
    (h : parseSemVerL s = some v) : s = renderVersion v ∧ specWF v := by
  unfold parseSemVerL at h
  split at h
  case _ r2 heq1 =>
    split at h
    case _ r4 heq2 =>
      split at h
      · exact absurd h (by simp)
      case _ hne =>
        split at h
        case _ heq3 =>
          injection h with hv
          subst hv
          refine ⟨?_, specWF_of_parts s hne none (fun k n hkn => by cases hkn)⟩
          conv_lhs =>
            rw [← List.takeWhile_append_dropWhile Char.isDigit s, heq1,
              ← List.takeWhile_append_dropWhile Char.isDigit r2, heq2,
              ← List.takeWhile_append_dropWhile Char.isDigit r4, heq3]
          simp [renderVersion, preSuffix]
        case _ n heq3 =>
          split at h
          case _ hdig =>
            injection h with hv
            subst hv
            refine ⟨?_, specWF_of_parts s hne _ (fun k n2 hkn => by
              injection hkn with hkn2
              injection hkn2 with hk hn
              rw [← hn]; exact hdig)⟩
            conv_lhs =>
              rw [← List.takeWhile_append_dropWhile Char.isDigit s, heq1,
                ← List.takeWhile_append_dropWhile Char.isDigit r2, heq2,
                ← List.takeWhile_append_dropWhile Char.isDigit r4, heq3]
            simp [renderVersion, preSuffix, preLetter]
          · exact absurd h (by simp)
        case _ n heq3 =>
          split at h
          case _ hdig =>
            injection h with hv
            subst hv
            refine ⟨?_, specWF_of_parts s hne _ (fun k n2 hkn => by
              injection hkn with hkn2
              injection hkn2 with hk hn
              rw [← hn]; exact hdig)⟩
            conv_lhs =>
              rw [← List.takeWhile_append_dropWhile Char.isDigit s, heq1,
                ← List.takeWhile_append_dropWhile Char.isDigit r2, heq2,
                ← List.takeWhile_append_dropWhile Char.isDigit r4, heq3]
            simp [renderVersion, preSuffix, preLetter]
          · exact absurd h (by simp)
        case _ n heq3 =>
          split at h
          case _ hdig =>
            injection h with hv
            subst hv
            refine ⟨?_, specWF_of_parts s hne _ (fun k n2 hkn => by
              injection hkn with hkn2
              injection hkn2 with hk hn
              rw [← hn]; exact hdig)⟩
            conv_lhs =>
              rw [← List.takeWhile_append_dropWhile Char.isDigit s, heq1,
                ← List.takeWhile_append_dropWhile Char.isDigit r2, heq2,
                ← List.takeWhile_append_dropWhile Char.isDigit r4, heq3]
            simp [renderVersion, preSuffix, preLetter]
          · exact absurd h (by simp)
        · exact absurd h (by simp)
    · exact absurd h (by simp)
  · exact absurd h (by simp)

theorem isMatch_renderVersion (v : VersionSpec) (h : specWF v) :
    validVersionIsMatchL (renderVersion v) = true := by
  obtain ⟨-, hd1, -, hd2, -, -, -⟩ := h
  unfold renderVersion validVersionIsMatchL
  rw [dropWhile_append_all (fun c hc => List.all_eq_true.mp hd1 c hc),
    List.dropWhile_cons, if_neg (by decide)]
  show (match List.dropWhile Char.isDigit
      (v.minor ++ ('.' :: (v.patch ++ preSuffix v.pre))) with
    | '.' :: _ => true
    | _ => false) = true
  rw [dropWhile_append_all (fun c hc => List.all_eq_true.mp hd2 c hc),
    List.dropWhile_cons, if_neg (by decide)]
  rfl

theorem replChar_skeleton {c : Char} (rep : List Char) {A B C suf : List Char}
    (hc : c.isDigit = false) (hv : ¬('v' = c)) (hd : ¬('.' = c))
    (hA : allDigits A = true) (hB : allDigits B = true) (hC : allDigits C = true) :
    replChar c rep ('v' :: (A ++ ('.' :: (B ++ ('.' :: (C ++ suf))))))
      = 'v' :: (A ++ ('.' :: (B ++ ('.' :: (C ++ replChar c rep suf))))) := by
  rw [replChar, if_neg hv, replChar_append, replChar_of_not_mem rep (not_mem_of_allDigits hA hc),
    replChar, if_neg hd, replChar_append, replChar_of_not_mem rep (not_mem_of_allDigits hB hc),
    replChar, if_neg hd, replChar_append, replChar_of_not_mem rep (not_mem_of_allDigits hC hc)]

theorem replRC_skeleton (rep : List Char) {A B C suf : List Char}
    (hA : allDigits A = true) (hB : allDigits B = true) (hC : allDigits C = true) :
    replRC rep ('v' :: (A ++ ('.' :: (B ++ ('.' :: (C ++ suf))))))
      = 'v' :: (A ++ ('.' :: (B ++ ('.' :: (C ++ replRC rep suf))))) := by
  have hr : ('r' : Char).isDigit = false := by decide
  rw [replRC_cons_ne rep (by decide),
    replRC_append_of_not_mem rep A _ (not_mem_of_allDigits hA hr),
    replRC_cons_ne rep (by decide),
    replRC_append_of_not_mem rep B _ (not_mem_of_allDigits hB hr),
    replRC_cons_ne rep (by decide),
    replRC_append_of_not_mem rep C _ (not_mem_of_allDigits hC hr)]

theorem suffix_transform (pre : Option (PreKind × List Char))
    (hpre : ∀ k n, pre = some (k, n) → allDigits n = true) :
    replRC rcWord (replChar 'b' betaWord (replChar 'a' alphaWord (preSuffix pre)))
      = preTagSuffix pre := by
  cases pre with
  | none => rfl
  | some kn =>
    obtain ⟨k, n⟩ := kn
    have hn := hpre k n rfl
    cases k with
    | alpha =>
      simp only [preSuffix, preLetter, List.cons_append, List.nil_append]
      rw [replChar, if_pos rfl,
        replChar_of_not_mem alphaWord (not_mem_of_allDigits hn (by decide)),
        replChar_append,
        replChar_of_not_mem betaWord (show 'b' ∉ alphaWord by decide),
        replChar_of_not_mem betaWord (not_mem_of_allDigits hn (by decide)),
        replRC_of_not_mem rcWord _ (by
          intro hm
          rcases List.mem_append.mp hm with hmm | hmm
          · exact absurd hmm (by decide)
          · exact not_mem_of_allDigits hn (by decide) hmm)]
      rfl
    | beta =>
      simp only [preSuffix, preLetter, List.cons_append, List.nil_append]
      rw [replChar_of_not_mem alphaWord (by
          intro hm
          rcases List.mem_cons.mp hm with hmm | hmm
          · exact absurd hmm (by decide)
          · exact not_mem_of_allDigits hn (by decide) hmm),
        replChar, if_pos rfl,
        replChar_of_not_mem betaWord (not_mem_of_allDigits hn (by decide)),
        replRC_of_not_mem rcWord _ (by
          intro hm
          rcases List.mem_append.mp hm with hmm | hmm
          · exact absurd hmm (by decide)
          · exact not_mem_of_allDigits hn (by decide) hmm)]
      rfl
    | rc =>
      simp only [preSuffix, preLetter, List.cons_append, List.nil_append]
      rw [replChar_of_not_mem alphaWord (by
          intro hm
          rcases List.mem_cons.mp hm with hmm | hmm
          · exact absurd hmm (by decide)
          rcases List.mem_cons.mp hmm with hmm2 | hmm2
          · exact absurd hmm2 (by decide)
          · exact not_mem_of_allDigits hn (by decide) hmm2),
        replChar_of_not_mem betaWord (by
          intro hm
          rcases List.mem_cons.mp hm with hmm | hmm
          · exact absurd hmm (by decide)
          rcases List.mem_cons.mp hmm with hmm2 | hmm2
          · exact absurd hmm2 (by decide)
          · exact not_mem_of_allDigits hn (by decide) hmm2),
        replRC_rc,
        replRC_of_not_mem rcWord n (not_mem_of_allDigits hn (by decide))]
      rfl

theorem expand_eq_renderTag {v : VersionSpec} (h : specWF v) :
    expand_version_to_tagL (renderVersion v) = renderTag v := by
  obtain ⟨h1, hA, h3, hB, h5, hC, hpre⟩ := h
  unfold expand_version_to_tagL
  rw [if_pos (isMatch_renderVersion v ⟨h1, hA, h3, hB, h5, hC, hpre⟩)]
  show replRC rcWord (replChar 'b' betaWord (replChar 'a' alphaWord
    ('v' :: (v.major ++ ('.' :: (v.minor ++ ('.' :: (v.patch ++ preSuffix v.pre)))))))) = renderTag v
  rw [replChar_skeleton alphaWord (by decide) (by decide) (by decide) hA hB hC,
    replChar_skeleton betaWord (by decide) (by decide) (by decide) hA hB hC,
    replRC_skeleton rcWord hA hB hC,
    suffix_transform v.pre hpre]
  rfl

/-! ## C8: injectivity of the tag codec on the VersionSpec domain -/

/-- Claim C8: the tag codec is injective over the VersionSpec domain — two
distinct valid version strings of the form `MAJOR.MINOR.PATCH[{a|b|rc}[N]]`
are mapped by `expand_version_to_tag` to two distinct tag names. -/
theorem c8_tag_codec_injective (s1 s2 : String) (v1 v2 : VersionSpec)
    (h1 : parseSemVer s1 = some v1) (h2 : parseSemVer s2 = some v2)
    (hne : s1 ≠ s2) :
    expand_version_to_tag s1 ≠ expand_version_to_tag s2 := by
  intro heq
  obtain ⟨e1, w1⟩ := parseSemVer_sound h1
  obtain ⟨e2, w2⟩ := parseSemVer_sound h2
  have hl : expand_version_to_tagL s1.data = expand_version_to_tagL s2.data :=
    congrArg String.data heq
  rw [e1, e2, expand_eq_renderTag w1, expand_eq_renderTag w2] at hl
  have hv := renderTag_inj w1 w2 hl
  apply hne
  have hdata : s1.data = s2.data := by rw [e1, e2, hv]
  exact congrArg String.mk hdata

/-- Claim C8, witness: `"1.0.0"` and `"1.0.0a1"` map to distinct tags. -/
theorem c8_witness : expand_version_to_tag "1.0.0" ≠ expand_version_to_tag "1.0.0a1" :=
  c8_tag_codec_injective "1.0.0" "1.0.0a1" ⟨['1'], ['0'], ['0'], none⟩
    ⟨['1'], ['0'], ['0'], some (PreKind.alpha, ['1'])⟩ (by decide) (by decide) (by decide)

